import Mathlib

/-!
Verification of `run_backup.py` (backup orchestrator).

The development shallowly embeds the program's core:
* the retention decision algorithm `BackupApp.get_outdated_backup_dates`,
* the effective-retention resolution in `BackupApp.delete_old_backups`,
* the upload/prune/verify orchestration of `BackupApp.run`,
  `BackupApp.upload_backup` and `BackupApp.verify_backup`,
* the `get_file` download paths of the four storage backends,
* the filename round trip `make_backup_filename` / `get_ts_from_backup_name`.

Machine integers of the source are modelled as `Int`/`Nat` (CPython ints are
unbounded, timestamps are whole seconds).  Code paths that raise an uncaught
exception are modelled as `Option`-valued functions returning `none`.
-/

/-! ## Retention periods (`BackupApp.get_outdated_backup_dates`)

A `Period` models one Python dict of the `retention` config list.  The source
reads keys `older_days`, `interval_hours` (optional) and `store` (optional,
default `True`), and writes the derived keys `end` and `interval` into the
dict in place.  Optional fields are `Option`; a missing key read by the code
is an uncaught `KeyError`, modelled as `none` propagation. -/
structure Period where
  older_days : Int
  interval_hours : Option Int := none
  store : Option Bool := none
  /-- models the dict key `end`, absent until the function writes it -/
  endTime : Option Int := none
  /-- models the dict key `interval`, absent until the function writes it -/
  interval : Option Int := none
  deriving Repr, DecidableEq

/-- The in-place mutation the source performs on every period dict:
`period['end'] = now - period['older_days'] * 24 * 3600` and, when
`interval_hours` is present, `period['interval'] = period['interval_hours'] * 3600`. -/
def updatePeriod (now : Int) (p : Period) : Period :=
  { p with
    endTime := some (now - p.older_days * 24 * 3600)
    interval :=
      match p.interval_hours with
      | some ih => some (ih * 3600)
      | none => p.interval }

/-- Stable insertion used to model Python's stable `sorted(..., key=rec['end'])`:
a later element is placed after earlier elements with a key `≤` its own. -/
def insertByEnd (p : Period) : List Period → List Period
  | [] => [p]
  | q :: qs =>
    if q.endTime.getD 0 ≤ p.endTime.getD 0 then q :: insertByEnd p qs
    else p :: q :: qs

/-- `sorted(retention_config, key=lambda rec: rec['end'])` (stable, ascending).
After `updatePeriod` every period has `endTime = some _`, so the `getD 0`
default in the sort key is never consulted on the actual data path. -/
def sortByEnd (ps : List Period) : List Period :=
  ps.foldl (fun acc p => insertByEnd p acc) []

/-- Stable insertion for `sorted(file_ts, key=lambda fd: fd[1])`. -/
def insertByTs (e : String × Int) : List (String × Int) → List (String × Int)
  | [] => [e]
  | f :: fs => if f.2 ≤ e.2 then f :: insertByTs e fs else e :: f :: fs

/-- `sorted(file_ts, key=lambda fd: fd[1])` (stable, ascending by timestamp). -/
def sortByTs (l : List (String × Int)) : List (String × Int) :=
  l.foldl (fun acc e => insertByTs e acc) []

/-- The `while` condition `current_period is None or ts > current_period['end']`. -/
def needAdvance (ts : Int) (cur : Option Period) : Bool :=
  match cur with
  | none => true
  | some p => ts > p.endTime.getD 0

/-- The body of the `while` loop: keep pulling the next period from the sorted
iterator until one with `ts ≤ end` is found; `none` models `StopIteration`. -/
def advanceLoop (ts : Int) : List Period → Option (Period × List Period)
  | [] => none
  | q :: qs => if ts > q.endTime.getD 0 then advanceLoop ts qs else some (q, qs)

/-- One execution of the `while` header for an entry: either keep the current
period (and the current bucket), or advance (resetting `current_interval_n`
to `None`); `none` models `StopIteration`, which returns `outdated` early. -/
def stepPeriod (ts : Int) (cur : Option Period) (bucket : Option Int)
    (periods : List Period) : Option (Period × Option Int × List Period) :=
  if needAdvance ts cur then
    match advanceLoop ts periods with
    | none => none
    | some (p, rest) => some (p, none, rest)
  else
    match cur with
    | none => none -- unreachable: `needAdvance ts none = true`
    | some p => some (p, bucket, periods)

/-- The `for (filename, ts) in sorted(file_ts, ...)` loop.  State: accumulated
`outdated`, `current_period`, `current_interval_n`, remaining periods of the
iterator.  Result `none` models an uncaught exception: the `KeyError` on
`current_period['interval']` when the key is absent, or the
`ZeroDivisionError` when the interval is zero. -/
def walkEntries (outdated : List (String × Int)) (cur : Option Period)
    (bucket : Option Int) (periods : List Period) :
    List (String × Int) → Option (List (String × Int))
  | [] => some outdated
  | (n, ts) :: es =>
    match stepPeriod ts cur bucket periods with
    | none => some outdated
    | some (p, b, rest) =>
      if (p.store.getD true) = false then
        walkEntries (outdated ++ [(n, ts)]) (some p) b rest es
      else
        match p.interval with
        | none => none
        | some iv =>
          if iv = 0 then none
          else
            let k := Int.fdiv ts iv
            if b = some k then walkEntries (outdated ++ [(n, ts)]) (some p) b rest es
            else walkEntries outdated (some p) (some k) rest es

/-- `BackupApp.get_outdated_backup_dates(file_ts, retention_config)` with the
single `now = time.time()` made an explicit argument.  The first component is
the returned `outdated` list (`none` = uncaught exception); the second is the
state of the caller's `retention_config` list after the call (the source
mutates the period dicts in place; `sorted` copies the list, so order is
preserved).  Python 2 `int(ts / interval)` on ints is floor division, hence
`Int.fdiv`. -/
def get_outdated_backup_dates (file_ts : List (String × Int))
    (retention_config : List Period) (now : Int) :
    Option (List (String × Int)) × List Period :=
  match retention_config with
  | [] => (some [], [])
  | _ =>
    let updated := retention_config.map (updatePeriod now)
    (walkEntries [] none none (sortByEnd updated) (sortByTs file_ts), updated)

/-! ## Effective retention rules (`BackupApp.delete_old_backups`, line 282)

`retention_config = storage_config.get('retention') or self.config.get('retention')`:
Python's `or` falls back to the global rules whenever the per-backend value is
falsy, i.e. missing, `None`, or an *empty* list. -/
def effectiveRetention (storageRetention globalRetention : Option (List Period)) :
    Option (List Period) :=
  match storageRetention with
  | some ps => if ps.isEmpty then globalRetention else some ps
  | none => globalRetention

/-- The largest boundary instant `now - older_days*86400` over a non-empty
period list `p0 :: ps`. -/
def largestBoundary (now : Int) (p0 : Period) (ps : List Period) : Int :=
  ps.foldl (fun acc p => max acc (now - p.older_days * 24 * 3600))
    (now - p0.older_days * 24 * 3600)

/-! ## Run orchestration (`BackupApp.upload_backup`, `BackupApp.run`,
`BackupApp.verify_backup`)

A storage backend of one run is abstracted by its name together with the
outcome of the external operations the coordinator invokes on it:
`putOk` — whether `storage.put_file` succeeds, `verifyOk` — whether the
external verification script run after downloading from it exits 0 within its
timeout. `Step` records the externally visible actions of `BackupApp.run` in
order. -/
structure StorageRun where
  name : String
  putOk : Bool
  verifyOk : Bool
  deriving Repr, DecidableEq

inductive Step where
  | prepare
  | upload (storage : String)
  | prune (storage : String)
  | download (storage : String)
  | verifyScript (storage : String)
  | writeSuccessMarker
  | cleanup
  deriving Repr, DecidableEq

/-- `BackupApp.upload_backup`: iterate over all storages, attempt
`put_file` on each, collect a traceback string per failing backend, and
raise them joined together only after the loop — modelled as the pair
(attempted upload steps in order, collected error strings). -/
def upload_backup (storages : List StorageRun) : List Step × List String :=
  storages.foldl
    (fun acc s =>
      (acc.1 ++ [Step.upload s.name],
       if s.putOk then acc.2 else acc.2 ++ ["Traceback: put_file failed on " ++ s.name]))
    ([], [])

/-- `BackupApp.verify_backup`: for each storage in turn run cleanup, download
the artifact, and execute the verify script; on a `TimeoutError` or
`CalledProcessError` log and `return` — stopping the loop, writing nothing,
and raising nothing.  Only after the loop finishes over all storages is
`success_timestamp_file` written with `int(time.time())`.  Result: the steps
performed, and `some now` iff the success marker was written. -/
def verify_backup (storages : List StorageRun) (now : Int) : List Step × Option Int :=
  match storages with
  | [] => ([Step.writeSuccessMarker], some now)
  | s :: rest =>
    if s.verifyOk then
      let r := verify_backup rest now
      (Step.cleanup :: Step.download s.name :: Step.verifyScript s.name :: r.1, r.2)
    else
      ([Step.cleanup, Step.download s.name, Step.verifyScript s.name], none)

/-- `BackupApp.run` after a successful prepare step: `upload_backup`, then —
only when it did not raise — `delete_old_backups` (one prune pass per
storage), `verify_backup`, and the final cleanup.  When `upload_backup`
collected errors it raises the aggregate exception, which `run` logs and
re-raises: the run aborts with no prune step.  Result: the ordered step
trace and `true` iff the run terminated without an uncaught exception. -/
def runApp (storages : List StorageRun) (now : Int) : List Step × Bool :=
  let up := upload_backup storages
  if up.2.isEmpty then
    let ver := verify_backup storages now
    (Step.prepare :: up.1
      ++ storages.map (fun s => Step.prune s.name)
      ++ ver.1 ++ [Step.cleanup], true)
  else
    (Step.prepare :: up.1, false)

/-! ## Backend downloads (`get_file` of the four storage backends)

Only the operations that touch paths under the caller's local destination
matter for the atomicity contract; remote reads are omitted.  `write p`
models a non-atomic local write (a `shutil.copy` destination, an
`open(p, 'wb')` stream, a WebDAV `download` target): if the operation dies
midway, a partial file is left at `p`.  `rename src dst` models
`os.rename`/`shutil.move`, atomic from the caller's point of view. -/
inductive FsOp where
  | write (path : String)
  | rename (src dst : String)
  deriving Repr, DecidableEq

/-- `LocalStorageBackend.get_file`: `shutil.copy(root/src, dest_file_path)` —
a direct copy onto the destination path. -/
def localGetFile (dest_file_path : String) : List FsOp :=
  [FsOp.write dest_file_path]

/-- `WebdavStorageBackend.get_file`: download to `dest_file_path + '.tmp'`,
then `os.rename` it onto `dest_file_path`. -/
def webdavGetFile (dest_file_path : String) : List FsOp :=
  [FsOp.write (dest_file_path ++ ".tmp"),
   FsOp.rename (dest_file_path ++ ".tmp") dest_file_path]

/-- `ResticStorageBackend.get_file`: `open(dest_file_path, 'wb')` and stream
`restic dump` straight into it. -/
def resticGetFile (dest_file_path : String) : List FsOp :=
  [FsOp.write dest_file_path]

/-- `RcloneStorageBackend.get_file`: `rclone copy` into a fresh
`tempfile.mkdtemp()` directory, then `shutil.move` the file onto the
destination. -/
def rcloneGetFile (temp_dir src_filename dest_file_path : String) : List FsOp :=
  [FsOp.write (temp_dir ++ "/" ++ src_filename),
   FsOp.rename (temp_dir ++ "/" ++ src_filename) dest_file_path]

/-- A download is safe for `dest` when no operation writes to `dest` directly:
an interrupted run then never leaves a partial file at `dest` (partial data
can only sit at temporary paths, and `dest` appears only as the target of an
atomic rename). -/
def safeDownload (ops : List FsOp) (dest : String) : Bool :=
  ops.all fun op =>
    match op with
    | FsOp.write p => !(p == dest)
    | FsOp.rename _ _ => true

/-! ## Backup filenames (`BackupApp.make_backup_filename`,
`BackupApp.get_ts_from_backup_name`)

`make_backup_filename` is `prefix + strftime('%Y-%m-%d_%H:%M:%S', gmtime()) + suffix`;
`get_ts_from_backup_name` is `calendar.timegm(strptime(s, prefix + fmt + suffix))`
with `ValueError` mapped to `None`.  `time.gmtime` / `calendar.timegm` are the
proleptic Gregorian calendar over UTC, embedded here by explicit folds over
years and months.  The time instant is a whole-second UTC epoch value `t : Nat`
(`strftime` sees the floor of `time.time()`). -/

def isLeap (y : Nat) : Bool := (y % 4 == 0 && y % 100 != 0) || y % 400 == 0

def daysInYear (y : Nat) : Nat := if isLeap y then 366 else 365

/-- Length of month `m` (1-based) of year `y`. -/
def monthLen (y m : Nat) : Nat :=
  if m = 2 then (if isLeap y then 29 else 28)
  else if m = 4 ∨ m = 6 ∨ m = 9 ∨ m = 11 then 30
  else 31

/-- Days of year `y` strictly before month `m` (1-based). -/
def monthDaysBefore (y : Nat) : Nat → Nat
  | 0 => 0
  | 1 => 0
  | m + 2 => monthDaysBefore y (m + 1) + monthLen y (m + 1)

/-- Number of days in the `k` consecutive years `y, y+1, …, y+k-1`. -/
def yearsSpan (y : Nat) : Nat → Nat
  | 0 => 0
  | k + 1 => yearsSpan y k + daysInYear (y + k)

/-- `calendar.timegm`'s day count: days from 1970-01-01 to `y-m-d` (proleptic
Gregorian, as `datetime.date.toordinal` computes it).  `d` need not be a valid
day of the month: like the source's `date(year, month, 1).toordinal() + day - 1`,
excess days simply overflow into the following months. -/
def daysFromCivil (y m d : Nat) : Int :=
  (if 1970 ≤ y then (yearsSpan 1970 (y - 1970) : Int) else -(yearsSpan y (1970 - y) : Int))
    + monthDaysBefore y m + d - 1

/-- `calendar.timegm` on the parsed struct-time fields. -/
def timegm (y mo d h mi s : Nat) : Int :=
  daysFromCivil y mo d * 86400 + h * 3600 + mi * 60 + s

/-- Year lookup of `time.gmtime`: starting from 1970, subtract whole years
from the day count.  The fuel argument only bounds the recursion; 9000 years
cover every instant of this development (through year 10969). -/
def findYear : Nat → Nat → Nat → Nat × Nat
  | 0, y, z => (y, z)
  | fuel + 1, y, z =>
    if z < daysInYear y then (y, z) else findYear fuel (y + 1) (z - daysInYear y)

/-- Month lookup of `time.gmtime` within year `y`: starting from month 1,
subtract whole months from the day-of-year; fuel 11 reaches month 12. -/
def findMonth (y : Nat) : Nat → Nat → Nat → Nat × Nat
  | 0, m, doy => (m, doy)
  | fuel + 1, m, doy =>
    if doy < monthLen y m then (m, doy) else findMonth y fuel (m + 1) (doy - monthLen y m)

structure Tm where
  year : Nat
  mon : Nat
  mday : Nat
  hour : Nat
  minute : Nat
  second : Nat
  deriving Repr, DecidableEq

/-- `time.gmtime(t)` for `t ≥ 0` (fields used by the datetime format). -/
def gmtime (t : Nat) : Tm :=
  let z := t / 86400
  let yr := findYear 9000 1970 z
  let md := findMonth yr.1 11 1 yr.2
  let r := t % 86400
  ⟨yr.1, md.1, md.2 + 1, r / 3600, r % 3600 / 60, r % 60⟩

/-- `%02d`: two zero-padded decimal digits (all formatted fields except the
year are below 100). -/
def pad2 (n : Nat) : List Char := [Nat.digitChar (n / 10), Nat.digitChar (n % 10)]

/-- glibc `strftime` `%Y` for the years `gmtime` produces here (≥ 1970):
four digits up to 9999, all digits beyond. -/
def yearChars (y : Nat) : List Char :=
  if y < 10000 then
    [Nat.digitChar (y / 1000), Nat.digitChar (y / 100 % 10),
     Nat.digitChar (y / 10 % 10), Nat.digitChar (y % 10)]
  else Nat.toDigits 10 y

/-- `time.strftime('%Y-%m-%d_%H:%M:%S', time.gmtime())` at instant `t`. -/
def dateChars (t : Nat) : List Char :=
  let tm := gmtime t
  yearChars tm.year ++ '-' :: pad2 tm.mon ++ '-' :: pad2 tm.mday
    ++ '_' :: pad2 tm.hour ++ ':' :: pad2 tm.minute ++ ':' :: pad2 tm.second

/-- `BackupApp.make_backup_filename` at instant `t`:
`self.config['prefix'] + date_str + self.config['suffix']`. -/
def make_backup_filename (pre suf : String) (t : Nat) : String :=
  pre ++ String.mk (dateChars t) ++ suf

def digitVal (c : Char) : Nat := c.toNat - 48

/-- CPython `_strptime` for the fixed format `%Y-%m-%d_%H:%M:%S` followed by a
literal suffix: exactly four year digits (`\d{4}`), two zero-padded digits for
the other fields with their regex ranges (month 1–12, day 1–31, hour 0–23,
minute 0–59, second 0–61), a full match required.  Year 0 is rejected because
`calendar.timegm` builds `datetime.date(year, …)`, whose minimum year is 1
(`ValueError → None`). -/
def parseName (suf : List Char) : List Char → Option Int
  | c1 :: c2 :: c3 :: c4 :: '-' :: c5 :: c6 :: '-' :: c7 :: c8 :: '_' ::
      c9 :: c10 :: ':' :: c11 :: c12 :: ':' :: c13 :: c14 :: rest =>
    if ([c1, c2, c3, c4, c5, c6, c7, c8, c9, c10, c11, c12, c13, c14].all Char.isDigit) = true
        ∧ rest = suf then
      let y := ((digitVal c1 * 10 + digitVal c2) * 10 + digitVal c3) * 10 + digitVal c4
      let mo := digitVal c5 * 10 + digitVal c6
      let d := digitVal c7 * 10 + digitVal c8
      let h := digitVal c9 * 10 + digitVal c10
      let mi := digitVal c11 * 10 + digitVal c12
      let s := digitVal c13 * 10 + digitVal c14
      if 1 ≤ y ∧ 1 ≤ mo ∧ mo ≤ 12 ∧ 1 ≤ d ∧ d ≤ 31 ∧ h ≤ 23 ∧ mi ≤ 59 ∧ s ≤ 61 then
        some (timegm y mo d h mi s)
      else none
    else none
  | _ => none

/-- `BackupApp.get_ts_from_backup_name(s)`, for a prefix and suffix free of
`strptime` format directives (so they match literally). -/
def get_ts_from_backup_name (pre suf : String) (s : String) : Option Int :=
  if pre.data.isPrefixOf s.data then parseName suf.data (s.data.drop pre.length)
  else none

/-- A `%` in the configured prefix or suffix would start a `strptime`
directive; the claims assume there is none. -/
def hasFormatDirective (s : String) : Bool := s.data.any (· = '%')

/-! ## Lemmas about the retention walk -/

theorem mem_insertByEnd {a p : Period} : ∀ {l : List Period},
    a ∈ insertByEnd p l ↔ a = p ∨ a ∈ l := by
  intro l
  induction l with
  | nil => simp [insertByEnd]
  | cons q qs ih =>
    simp only [insertByEnd]
    split
    · simp only [List.mem_cons, ih]
      tauto
    · simp only [List.mem_cons]

theorem mem_sortByEnd_foldl {a : Period} : ∀ (l acc : List Period),
    a ∈ l.foldl (fun acc p => insertByEnd p acc) acc ↔ a ∈ acc ∨ a ∈ l := by
  intro l
  induction l with
  | nil => simp
  | cons p ps ih =>
    intro acc
    simp only [List.foldl_cons, ih, mem_insertByEnd, List.mem_cons]
    tauto

theorem mem_sortByEnd {a : Period} {l : List Period} :
    a ∈ sortByEnd l ↔ a ∈ l := by
  simp [sortByEnd, mem_sortByEnd_foldl]

theorem advanceLoop_spec {ts : Int} : ∀ {l : List Period} {p : Period}
    {rest : List Period}, advanceLoop ts l = some (p, rest) →
    p ∈ l ∧ ts ≤ p.endTime.getD 0 ∧ ∀ q ∈ rest, q ∈ l := by
  intro l
  induction l with
  | nil => intro p rest h; simp [advanceLoop] at h
  | cons q qs ih =>
    intro p rest h
    by_cases hc : ts > q.endTime.getD 0
    · simp only [advanceLoop, if_pos hc] at h
      rcases ih h with ⟨h1, h2, h3⟩
      exact ⟨List.mem_cons_of_mem _ h1, h2, fun r hr => List.mem_cons_of_mem _ (h3 r hr)⟩
    · simp only [advanceLoop, if_neg hc] at h
      cases h
      exact ⟨List.mem_cons_self _ _, le_of_not_lt hc, fun r hr => List.mem_cons_of_mem _ hr⟩

theorem stepPeriod_spec {ts : Int} {cur : Option Period} {bucket : Option Int}
    {periods : List Period} {p : Period} {b : Option Int} {rest : List Period}
    (h : stepPeriod ts cur bucket periods = some (p, b, rest)) :
    (p ∈ cur.toList ∨ p ∈ periods) ∧ ts ≤ p.endTime.getD 0 ∧
    ∀ q ∈ rest, q ∈ periods := by
  by_cases hadv : needAdvance ts cur = true
  · simp only [stepPeriod, if_pos hadv] at h
    cases hal : advanceLoop ts periods with
    | none => rw [hal] at h; cases h
    | some pr =>
      rw [hal] at h
      cases h
      rcases advanceLoop_spec hal with ⟨h1, h2, h3⟩
      exact ⟨Or.inr h1, h2, h3⟩
  · simp only [stepPeriod, if_neg hadv] at h
    cases cur with
    | none => simp [needAdvance] at hadv
    | some q =>
      cases h
      refine ⟨Or.inl (by simp), ?_, fun r hr => hr⟩
      simp only [needAdvance, decide_eq_true_eq] at hadv
      omega

/-- Unfolding equation for `walkEntries` on a cons cell. -/
theorem walkEntries_cons (outdated : List (String × Int)) (cur : Option Period)
    (bucket : Option Int) (periods : List Period) (n : String) (ts : Int)
    (es : List (String × Int)) :
    walkEntries outdated cur bucket periods ((n, ts) :: es) =
      match stepPeriod ts cur bucket periods with
      | none => some outdated
      | some (p, b, rest) =>
        if (p.store.getD true) = false then
          walkEntries (outdated ++ [(n, ts)]) (some p) b rest es
        else
          match p.interval with
          | none => none
          | some iv =>
            if iv = 0 then none
            else
              if b = some (Int.fdiv ts iv) then
                walkEntries (outdated ++ [(n, ts)]) (some p) b rest es
              else walkEntries outdated (some p) (some (Int.fdiv ts iv)) rest es := rfl

theorem walkEntries_mem : ∀ (es : List (String × Int))
    (outdated : List (String × Int)) (cur : Option Period) (bucket : Option Int)
    (periods : List Period) (r : List (String × Int)),
    walkEntries outdated cur bucket periods es = some r →
    ∀ x ∈ r, x ∈ outdated ∨
      ∃ p, (p ∈ cur.toList ∨ p ∈ periods) ∧ x.2 ≤ p.endTime.getD 0 := by
  intro es
  induction es with
  | nil =>
    intro outdated cur bucket periods r h x hx
    simp only [walkEntries, Option.some.injEq] at h
    subst h
    exact Or.inl hx
  | cons e es ih =>
    intro outdated cur bucket periods r h x hx
    obtain ⟨n, ts⟩ := e
    rw [walkEntries_cons] at h
    cases hstep : stepPeriod ts cur bucket periods with
    | none =>
      simp only [hstep, Option.some.injEq] at h
      subst h
      exact Or.inl hx
    | some pbr =>
      obtain ⟨p, b, rest⟩ := pbr
      simp only [hstep] at h
      rcases stepPeriod_spec hstep with ⟨hp, hts, hrest⟩
      have lift : ∀ q : Period, (q = p ∨ q ∈ rest) →
          (q ∈ cur.toList ∨ q ∈ periods) := by
        intro q hq
        rcases hq with hq | hq
        · subst hq; exact hp
        · exact Or.inr (hrest q hq)
      have onAppend : x ∈ outdated ++ [(n, ts)] → x ∈ outdated ∨
          ∃ p', (p' ∈ cur.toList ∨ p' ∈ periods) ∧ x.2 ≤ p'.endTime.getD 0 := by
        intro hm
        rcases List.mem_append.1 hm with hm | hm
        · exact Or.inl hm
        · simp at hm
          subst hm
          exact Or.inr ⟨p, hp, hts⟩
      have fromRec : ∀ (out' : List (String × Int)) (b' : Option Int),
          walkEntries out' (some p) b' rest es = some r →
          x ∈ out' ∨ ∃ p', (p' = p ∨ p' ∈ rest) ∧ x.2 ≤ p'.endTime.getD 0 := by
        intro out' b' h'
        rcases ih out' (some p) b' rest r h' x hx with hx' | ⟨p', hp', hle⟩
        · exact Or.inl hx'
        · refine Or.inr ⟨p', ?_, hle⟩
          rcases hp' with hp' | hp'
          · simp at hp'; exact Or.inl hp'
          · exact Or.inr hp'
      split at h
      · rcases fromRec _ _ h with hx' | ⟨p', hp', hle⟩
        · exact onAppend hx'
        · exact Or.inr ⟨p', lift p' hp', hle⟩
      · cases hiv : p.interval with
        | none => simp only [hiv] at h; cases h
        | some iv =>
          simp only [hiv] at h
          split at h
          · cases h
          · split at h
            · rcases fromRec _ _ h with hx' | ⟨p', hp', hle⟩
              · exact onAppend hx'
              · exact Or.inr ⟨p', lift p' hp', hle⟩
            · rcases fromRec _ _ h with hx' | ⟨p', hp', hle⟩
              · exact Or.inl hx'
              · exact Or.inr ⟨p', lift p' hp', hle⟩

/-- Any member of a returned outdated list has its timestamp bounded by the
boundary `now - older_days*24*3600` of one of the configured periods. -/
theorem outdated_le_some_boundary {file_ts : List (String × Int)}
    {retention_config : List Period} {now : Int} {r : List (String × Int)}
    (h : (get_outdated_backup_dates file_ts retention_config now).1 = some r)
    {x : String × Int} (hx : x ∈ r) :
    ∃ p ∈ retention_config, x.2 ≤ now - p.older_days * 24 * 3600 := by
  cases retention_config with
  | nil =>
    simp only [get_outdated_backup_dates, Option.some.injEq] at h
    subst h
    cases hx
  | cons p0 ps =>
    simp only [get_outdated_backup_dates] at h
    rcases walkEntries_mem _ _ _ _ _ _ h x hx with hx' | ⟨p, hp, hle⟩
    · cases hx'
    · rcases hp with hp | hp
      · simp at hp
      · rw [mem_sortByEnd] at hp
        rcases List.mem_map.1 hp with ⟨q, hq, rfl⟩
        refine ⟨q, hq, ?_⟩
        simpa [updatePeriod] using hle

/-! ## Claims C1, C9 — which entries can never be deleted -/

/-- C1 counterexample: with the single period `{older_days: 1, store: False}`
and `now = 1000000`, the boundary is `913600`; the entry `("f", 100)` is
older than every configured period's boundary, yet the function returns it in
the outdated set (the walk places the oldest entries under the
oldest-boundary period's rules; it is the *newest* entries, beyond the last
boundary, that the early `StopIteration` return spares). -/
theorem c1_counterexample :
    ((100 : Int) < 1000000 - (1 : Int) * 24 * 3600) ∧
    (get_outdated_backup_dates [("f", 100)]
      [{ older_days := 1, store := some false }] 1000000).1 = some [("f", 100)] := by
  constructor
  · decide
  · decide

/-- C1 (amended): for every call, every entry whose timestamp is *newer* than
every configured period's boundary instant `end = now - older_days*86400` is
excluded from the returned outdated set, regardless of keep flags and
intervals.  (Entries *older* than every boundary instead fall under the
oldest-boundary period's rules.) -/
theorem c1_amended (file_ts : List (String × Int)) (retention_config : List Period)
    (now : Int) (name : String) (ts : Int) (r : List (String × Int))
    (hnew : ∀ p ∈ retention_config, now - p.older_days * 24 * 3600 < ts)
    (h : (get_outdated_backup_dates file_ts retention_config now).1 = some r) :
    (name, ts) ∉ r := by
  intro hmem
  rcases outdated_le_some_boundary h hmem with ⟨p, hp, hle⟩
  have hlt := hnew p hp
  simp only at hle
  omega

theorem c1_witness :
    (∀ p ∈ [({ older_days := 1 } : Period)],
      1000000 - p.older_days * 24 * 3600 < (999999 : Int)) ∧
    ("f", (999999 : Int)) ∉ ([] : List (String × Int)) :=
  ⟨by decide,
   c1_amended [("f", 999999)] [{ older_days := 1 }] 1000000 "f" 999999 []
     (by decide) (by decide)⟩

theorem foldl_max_bounds (now : Int) : ∀ (l : List Period) (a : Int),
    a ≤ l.foldl (fun acc p => max acc (now - p.older_days * 24 * 3600)) a ∧
    ∀ p ∈ l, now - p.older_days * 24 * 3600 ≤
      l.foldl (fun acc p => max acc (now - p.older_days * 24 * 3600)) a := by
  intro l
  induction l with
  | nil => intro a; exact ⟨le_refl a, by simp⟩
  | cons q qs ih =>
    intro a
    rcases ih (max a (now - q.older_days * 24 * 3600)) with ⟨h1, h2⟩
    refine ⟨le_trans (le_max_left _ _) h1, ?_⟩
    intro p hp
    rcases List.mem_cons.1 hp with rfl | hp
    · exact le_trans (le_max_right _ _) h1
    · exact h2 p hp

theorem le_largestBoundary {now : Int} {p0 : Period} {ps : List Period}
    {p : Period} (hp : p ∈ p0 :: ps) :
    now - p.older_days * 24 * 3600 ≤ largestBoundary now p0 ps := by
  rcases List.mem_cons.1 hp with rfl | hp
  · exact (foldl_max_bounds now ps _).1
  · exact (foldl_max_bounds now ps _).2 p hp

/-- C9: for every non-empty period list, every entry strictly newer than the
largest boundary instant is never in the returned outdated set — exhausting
the sorted periods terminates the walk and the remaining newest entries are
retained. -/
theorem c9_newest_retained (file_ts : List (String × Int)) (p0 : Period)
    (ps : List Period) (now : Int) (name : String) (ts : Int)
    (r : List (String × Int)) (hts : largestBoundary now p0 ps < ts)
    (h : (get_outdated_backup_dates file_ts (p0 :: ps) now).1 = some r) :
    (name, ts) ∉ r := by
  intro hmem
  rcases outdated_le_some_boundary h hmem with ⟨p, hp, hle⟩
  have := @le_largestBoundary now p0 ps p hp
  simp only at hle
  omega

theorem c9_witness :
    largestBoundary 1000000 { older_days := 1 } [{ older_days := 0 }] < (999999999 : Int) ∧
    ("f", (999999999 : Int)) ∉ ([] : List (String × Int)) :=
  ⟨by decide,
   c9_newest_retained [("f", 999999999)] { older_days := 1 } [{ older_days := 0 }]
     1000000 "f" 999999999 [] (by decide) (by decide)⟩

/-! ## Claim C3 — keep-period without an interval -/

/-- C3: the code contradicts the documented behaviour.  For the period
`{older_days: 0}` the keep flag defaults to true and `interval_hours` is
absent; the entry `("f", 50)` falls within the period (`50 ≤ end = 100`), and
instead of retaining it the function dies with a `KeyError` on
`current_period['interval']` (modelled as `none`). -/
theorem c3_keyerror :
    ({ older_days := 0 } : Period).store.getD true = true ∧
    ({ older_days := 0 } : Period).interval_hours = none ∧
    ((50 : Int) ≤ 100 - (0 : Int) * 24 * 3600) ∧
    (get_outdated_backup_dates [("f", 50)] [{ older_days := 0 }] 100).1 = none := by
  refine ⟨rfl, rfl, by decide, by decide⟩

/-! ## Claims C7, C8 — effective retention override; purity of the decision -/

/-- C7 counterexample: a backend whose configuration contains the retention
override `[]` (an explicitly empty rule list) does not get the override
applied: Python's `or` treats the empty list as falsy and silently falls back
to the global rule set. -/
theorem c7_counterexample :
    effectiveRetention (some []) (some [{ older_days := 1 }])
        = some [{ older_days := 1 }] ∧
    effectiveRetention (some []) (some [{ older_days := 1 }])
        ≠ some ([] : List Period) := by
  refine ⟨rfl, by decide⟩

/-- C7 (amended): for every backend whose configuration contains a *non-empty*
per-backend retention override, the effective retention rules are exactly the
override, whatever the global rule set is. -/
theorem c7_amended (l : List Period) (g : Option (List Period)) (h : l ≠ []) :
    effectiveRetention (some l) g = some l := by
  simp [effectiveRetention, List.isEmpty_iff, h]

theorem c7_witness :
    ([({ older_days := 1 } : Period)] ≠ []) ∧
    effectiveRetention (some [{ older_days := 1 }]) none = some [{ older_days := 1 }] :=
  ⟨by decide, c7_amended [{ older_days := 1 }] none (by decide)⟩

/-- C8 counterexample: the decision function mutates the period records passed
in: it writes the derived key `end` (and `interval`) into each period dict,
so after the call the caller's records differ from what was passed. -/
theorem c8_counterexample :
    (get_outdated_backup_dates [] [{ older_days := 1 }] 0).2
      ≠ [({ older_days := 1 } : Period)] := by
  decide

theorem updatePeriod_idem (now : Int) (p : Period) :
    updatePeriod now (updatePeriod now p) = updatePeriod now p := by
  cases hih : p.interval_hours <;> simp [updatePeriod, hih]

/-- C8 (amended): the decision depends only on `(entries, periods, now)` and
does not modify its entries argument, but it does write the derived `end` and
`interval` fields into the period records in place.  The mutation is
idempotent and invisible to the result: calling the function again on the
mutated period records with the same `now` returns the same outdated set and
the same records. -/
theorem c8_amended (file_ts : List (String × Int)) (ps : List Period) (now : Int) :
    get_outdated_backup_dates file_ts
        (get_outdated_backup_dates file_ts ps now).2 now
      = get_outdated_backup_dates file_ts ps now := by
  cases ps with
  | nil => rfl
  | cons p ps =>
    have h2 : (get_outdated_backup_dates file_ts (p :: ps) now).2
        = updatePeriod now p :: ps.map (updatePeriod now) := by
      simp [get_outdated_backup_dates]
    rw [h2]
    have h3 : (updatePeriod now p :: ps.map (updatePeriod now)).map (updatePeriod now)
        = updatePeriod now p :: ps.map (updatePeriod now) := by
      simp only [List.map_cons, List.map_map, updatePeriod_idem]
      congr 1
      exact List.map_congr_left (fun a _ => updatePeriod_idem now a)
    simp only [get_outdated_backup_dates, List.map_cons] at h3 ⊢
    rw [show updatePeriod now (updatePeriod now p) = updatePeriod now p from
      updatePeriod_idem now p] at h3 ⊢
    rw [List.map_map] at h3 ⊢
    rw [show ps.map (updatePeriod now ∘ updatePeriod now) = ps.map (updatePeriod now) from
      List.map_congr_left (fun a _ => updatePeriod_idem now a)]

/-! ## Claim C2 — upload failures and pruning -/

theorem upload_backup_foldl : ∀ (l : List StorageRun) (acc : List Step × List String),
    l.foldl
      (fun acc s =>
        (acc.1 ++ [Step.upload s.name],
         if s.putOk then acc.2 else acc.2 ++ ["Traceback: put_file failed on " ++ s.name]))
      acc
    = (acc.1 ++ l.map (fun s => Step.upload s.name),
       acc.2 ++ (l.filter (fun s => !s.putOk)).map
         (fun s => "Traceback: put_file failed on " ++ s.name)) := by
  intro l
  induction l with
  | nil => intro acc; simp
  | cons s ls ih =>
    intro acc
    simp only [List.foldl_cons, ih, List.map_cons, List.filter_cons]
    cases hput : s.putOk <;> simp [hput]

theorem upload_backup_spec (ss : List StorageRun) :
    (upload_backup ss).1 = ss.map (fun s => Step.upload s.name) ∧
    (upload_backup ss).2 = (ss.filter (fun s => !s.putOk)).map
      (fun s => "Traceback: put_file failed on " ++ s.name) := by
  simp [upload_backup, upload_backup_foldl]

/-- C2 counterexample: with backend `A` failing its upload and backend `B`
succeeding, `upload_backup` raises the aggregate error before `run` ever
reaches `delete_old_backups`, so no pruning runs against `B` (nor anything
else) in that run. -/
theorem c2_counterexample :
    Step.upload "B" ∈ (runApp [⟨"A", false, true⟩, ⟨"B", true, true⟩] 0).1 ∧
    Step.prune "B" ∉ (runApp [⟨"A", false, true⟩, ⟨"B", true, true⟩] 0).1 := by
  decide

/-- C2 (amended): a put failure on one backend does not prevent put from
being attempted on the remaining backends, and all per-backend failures are
collected and raised together as one aggregate error only after every backend
was attempted; but when any upload failed, that aggregate error aborts the
run *before* the prune step: pruning runs (for every backend) only in runs
whose uploads all succeeded. -/
theorem c2_amended (ss : List StorageRun) (now : Int) :
    (upload_backup ss).1 = ss.map (fun s => Step.upload s.name) ∧
    (upload_backup ss).2 = (ss.filter (fun s => !s.putOk)).map
      (fun s => "Traceback: put_file failed on " ++ s.name) ∧
    ((upload_backup ss).2 ≠ [] →
      (runApp ss now).1 = Step.prepare :: ss.map (fun s => Step.upload s.name) ∧
      (runApp ss now).2 = false ∧
      ∀ nm : String, Step.prune nm ∉ (runApp ss now).1) ∧
    ((upload_backup ss).2 = [] →
      ∀ s ∈ ss, Step.prune s.name ∈ (runApp ss now).1) := by
  rcases upload_backup_spec ss with ⟨h1, h2⟩
  refine ⟨h1, h2, ?_, ?_⟩
  · intro herr
    have hne : (upload_backup ss).2.isEmpty = false := by
      cases hh : (upload_backup ss).2
      · exact absurd hh herr
      · simp
    have hrun : runApp ss now = (Step.prepare :: (upload_backup ss).1, false) := by
      simp [runApp, hne]
    rw [hrun]
    refine ⟨by rw [h1], rfl, ?_⟩
    intro nm hmem
    rcases List.mem_cons.1 hmem with hc | hc
    · cases hc
    · rw [h1] at hc
      rcases List.mem_map.1 hc with ⟨s, _, hs⟩
      cases hs
  · intro herr
    intro s hs
    have he : (upload_backup ss).2.isEmpty = true := by rw [herr]; rfl
    simp only [runApp, he, if_true]
    apply List.mem_cons_of_mem
    apply List.mem_append.2
    left
    apply List.mem_append.2
    left
    apply List.mem_append.2
    right
    exact List.mem_map.2 ⟨s, hs, rfl⟩

theorem c2_witness :
    ((upload_backup [⟨"A", false, true⟩, ⟨"B", true, true⟩]).2 ≠ []) ∧
    (runApp [⟨"A", false, true⟩, ⟨"B", true, true⟩] 0).1
      = Step.prepare :: [(⟨"A", false, true⟩ : StorageRun),
          ⟨"B", true, true⟩].map (fun s => Step.upload s.name) ∧
    (runApp [⟨"A", false, true⟩, ⟨"B", true, true⟩] 0).2 = false ∧
    ∀ nm : String, Step.prune nm ∉ (runApp [⟨"A", false, true⟩, ⟨"B", true, true⟩] 0).1 :=
  ⟨by decide,
   (c2_amended [⟨"A", false, true⟩, ⟨"B", true, true⟩] 0).2.2.1 (by decide)⟩

/-! ## Claim C5 — verify loop short-circuit and the success marker -/

/-- C5: if a backend's verification fails (timeout or non-zero exit), the
verify loop stops right there: later backends are not attempted and the
success-timestamp file is not written — and `verify_backup` returns normally
rather than raising, so the run is not treated as failed.  Conversely a
non-`none` marker means the loop completed over all backends with every
verification succeeding, and the persisted value is the current Unix time
`now`. -/
theorem c5_verify (now : Int) :
    (∀ (s : StorageRun) (rest : List StorageRun), s.verifyOk = false →
      verify_backup (s :: rest) now
        = ([Step.cleanup, Step.download s.name, Step.verifyScript s.name], none)) ∧
    (∀ ss : List StorageRun, (verify_backup ss now).2 ≠ none →
      (verify_backup ss now).2 = some now ∧ ∀ s ∈ ss, s.verifyOk = true) ∧
    (∀ ss : List StorageRun, (upload_backup ss).2 = [] → (runApp ss now).2 = true) := by
  refine ⟨?_, ?_, ?_⟩
  · intro s rest hfail
    simp [verify_backup, hfail]
  · intro ss
    induction ss with
    | nil => intro _; exact ⟨rfl, by simp⟩
    | cons s rest ih =>
      intro h
      cases hok : s.verifyOk
      · simp [verify_backup, hok] at h
      · simp only [verify_backup, hok, if_true] at h ⊢
        rcases ih h with ⟨ih1, ih2⟩
        refine ⟨ih1, ?_⟩
        intro s' hs'
        rcases List.mem_cons.1 hs' with rfl | hs'
        · exact hok
        · exact ih2 s' hs'
  · intro ss herr
    have he : (upload_backup ss).2.isEmpty = true := by rw [herr]; rfl
    simp [runApp, he]

theorem c5_witness :
    verify_backup [⟨"a", true, false⟩, ⟨"b", true, true⟩] 7
      = ([Step.cleanup, Step.download "a", Step.verifyScript "a"], none) ∧
    ((verify_backup [(⟨"x", true, true⟩ : StorageRun)] 42).2 = some 42 ∧
      ∀ s ∈ [(⟨"x", true, true⟩ : StorageRun)], s.verifyOk = true) :=
  ⟨(c5_verify 7).1 ⟨"a", true, false⟩ [⟨"b", true, true⟩] rfl,
   (c5_verify 42).2.1 [⟨"x", true, true⟩] (by decide)⟩

/-! ## Claim C6 — temp-file discipline of `get_file` -/

/-- C6 counterexample: the local backend's `get_file` is a `shutil.copy`
straight onto the destination path, and the restic backend's `get_file`
opens the destination itself for writing — neither goes through a temporary
location, so an interrupted download can leave a partial file at the
destination. -/
theorem c6_counterexample :
    safeDownload (localGetFile "/data/backup.tar") "/data/backup.tar" = false ∧
    safeDownload (resticGetFile "/data/backup.tar") "/data/backup.tar" = false := by
  decide

/-- C6 (amended): only the WebDAV and rclone backends download into a
temporary location first and move the file onto the destination path only on
full success; the local and restic backends write the destination path
directly.  (For rclone the temporary directory is a fresh `mkdtemp` result,
so its staging path differs from the destination.) -/
theorem c6_amended (dest tmp src : String) (htmp : tmp ++ "/" ++ src ≠ dest) :
    safeDownload (webdavGetFile dest) dest = true ∧
    safeDownload (rcloneGetFile tmp src dest) dest = true ∧
    safeDownload (localGetFile dest) dest = false ∧
    safeDownload (resticGetFile dest) dest = false := by
  have hne : dest ++ ".tmp" ≠ dest := by
    intro h
    have hlen := congrArg String.length h
    rw [String.length_append] at hlen
    have h4 : (".tmp").length = 4 := by decide
    omega
  refine ⟨?_, ?_, ?_, ?_⟩
  · simp [safeDownload, webdavGetFile, hne]
  · simp [safeDownload, rcloneGetFile, htmp]
  · simp [safeDownload, localGetFile]
  · simp [safeDownload, resticGetFile]

theorem c6_witness :
    ("/tmp/stage" ++ "/" ++ "f.tar" ≠ "/data/backup.tar") ∧
    safeDownload (webdavGetFile "/data/backup.tar") "/data/backup.tar" = true ∧
    safeDownload (rcloneGetFile "/tmp/stage" "f.tar" "/data/backup.tar") "/data/backup.tar" = true ∧
    safeDownload (localGetFile "/data/backup.tar") "/data/backup.tar" = false ∧
    safeDownload (resticGetFile "/data/backup.tar") "/data/backup.tar" = false :=
  ⟨by decide, c6_amended "/data/backup.tar" "/tmp/stage" "f.tar" (by decide)⟩

/-! ## Claim C4 — interval bucketing inside a keep-period -/

/-- C4: inside a keep-period with an interval, entries are bucketed by
`floor(ts / interval)` walking oldest to newest: the first entry of a new
bucket is retained, a subsequent entry in the same bucket is marked outdated.
For entries at `t`, `t+1`, `t+interval+1` inside one such period with `t` and
`t+1` sharing a bucket, exactly the middle one is outdated. -/
theorem c4_interval_bucketing (a b c : String) (t ih D now : Int)
    (hih : 0 < ih)
    (hshare : Int.fdiv t (ih * 3600) = Int.fdiv (t + 1) (ih * 3600))
    (hend : t + ih * 3600 + 1 ≤ now - D * 24 * 3600) :
    (get_outdated_backup_dates [(a, t), (b, t + 1), (c, t + ih * 3600 + 1)]
      [{ older_days := D, interval_hours := some ih }] now).1
      = some [(b, t + 1)] := by
  set iv : Int := ih * 3600 with hiv
  set E : Int := now - D * 24 * 3600 with hE
  have hivpos : 0 < iv := by positivity
  have hiv0 : ¬(iv = 0) := by omega
  set P' : Period := { older_days := D, interval_hours := some ih, endTime := some E, interval := some iv } with hP'
  have hupd : updatePeriod now { older_days := D, interval_hours := some ih } = P' := by
    simp [updatePeriod, hP', hE, hiv]
  have hsortP : sortByEnd [P'] = [P'] := rfl
  have hsortE : sortByTs [(a, t), (b, t + 1), (c, t + iv + 1)]
      = [(a, t), (b, t + 1), (c, t + iv + 1)] := by
    simp [sortByTs, insertByTs,
      show (t : Int) ≤ t + 1 by omega,
      show (t : Int) ≤ t + iv + 1 by omega,
      show (t : Int) + 1 ≤ t + iv + 1 by omega]
  have hPe : P'.endTime.getD 0 = E := rfl
  have hPs : (P'.store.getD true = false) = False := by simp [hP']
  have hPi : P'.interval = some iv := rfl
  have hstep1 : stepPeriod t none none [P'] = some (P', none, []) := by
    simp [stepPeriod, needAdvance, advanceLoop, hPe, show ¬(t > E) by omega]
  have hstep2 : ∀ bk : Option Int, stepPeriod (t + 1) (some P') bk [] = some (P', bk, []) := by
    intro bk
    simp [stepPeriod, needAdvance, hPe, show ¬(t + 1 > E) by omega]
  have hstep3 : ∀ bk : Option Int, stepPeriod (t + iv + 1) (some P') bk [] = some (P', bk, []) := by
    intro bk
    simp [stepPeriod, needAdvance, hPe, show ¬(t + iv + 1 > E) by omega]
  have hk3 : Int.fdiv (t + iv + 1) iv = Int.fdiv (t + 1) iv + 1 := by
    rw [Int.fdiv_eq_ediv _ (le_of_lt hivpos), Int.fdiv_eq_ediv _ (le_of_lt hivpos)]
    rw [show t + iv + 1 = (t + 1) + 1 * iv by ring]
    rw [Int.add_mul_ediv_right _ _ (by omega : iv ≠ 0)]
  simp only [get_outdated_backup_dates, List.map_cons, List.map_nil, hupd, hsortP, hsortE]
  rw [walkEntries_cons, hstep1]
  simp only [hPs, if_false, hPi, if_neg hiv0]
  rw [if_neg (show ¬((none : Option Int) = some (Int.fdiv t iv)) by simp)]
  rw [walkEntries_cons, hstep2]
  simp only [hPs, if_false, hPi, if_neg hiv0]
  rw [if_pos (show some (Int.fdiv t iv) = some (Int.fdiv (t + 1) iv) by rw [hshare])]
  rw [walkEntries_cons, hstep3]
  simp only [hPs, if_false, hPi, if_neg hiv0]
  rw [if_neg (show ¬(some (Int.fdiv t iv) = some (Int.fdiv (t + iv + 1) iv)) by
    rw [hk3, hshare]; simp)]
  rfl

theorem c4_witness :
    ((0 : Int) < 1) ∧
    Int.fdiv 0 (1 * 3600) = Int.fdiv (0 + 1) (1 * 3600) ∧
    ((0 : Int) + 1 * 3600 + 1 ≤ 100000 - 0 * 24 * 3600) ∧
    (get_outdated_backup_dates [("a", 0), ("b", 0 + 1), ("c", 0 + 1 * 3600 + 1)]
      [{ older_days := 0, interval_hours := some 1 }] 100000).1
      = some [("b", 0 + 1)] :=
  ⟨by decide, by decide, by decide,
   c4_interval_bucketing "a" "b" "c" 0 1 0 100000 (by decide) (by decide) (by decide)⟩

/-! ## Claim C10 — filename round trip

The round trip rests on the calendar inversion `timegm (gmtime t) = t`,
established structurally: `findYear`/`findMonth` are inverted through the
cumulative sums `yearsSpan`/`monthDaysBefore`, with the Gregorian 400-year
period (146097 days) giving the exact day number of 10000-01-01. -/

theorem daysInYear_ge (y : Nat) : 365 ≤ daysInYear y := by
  unfold daysInYear
  split <;> omega

theorem yearsSpan_succ_front (y : Nat) : ∀ k, yearsSpan y (k + 1) = daysInYear y + yearsSpan (y + 1) k := by
  intro k
  induction k with
  | zero => simp [yearsSpan]
  | succ k ih =>
    have ha : y + (k + 1) = (y + 1) + k := by omega
    calc yearsSpan y (k + 1 + 1) = yearsSpan y (k + 1) + daysInYear (y + (k + 1)) := rfl
    _ = daysInYear y + yearsSpan (y + 1) k + daysInYear ((y + 1) + k) := by rw [ih, ha]
    _ = daysInYear y + yearsSpan (y + 1) (k + 1) := by
        show _ = daysInYear y + (yearsSpan (y + 1) k + daysInYear ((y + 1) + k))
        omega

theorem yearsSpan_ge (y : Nat) : ∀ k, 365 * k ≤ yearsSpan y k := by
  intro k
  induction k with
  | zero => simp [yearsSpan]
  | succ k ih =>
    have := daysInYear_ge (y + k)
    calc 365 * (k + 1) = 365 * k + 365 := by ring
    _ ≤ yearsSpan y k + daysInYear (y + k) := by omega
    _ = yearsSpan y (k + 1) := rfl

theorem yearsSpan_mono (y : Nat) {k k' : Nat} (h : k ≤ k') : yearsSpan y k ≤ yearsSpan y k' := by
  induction k' with
  | zero => simp at h; simp [h]
  | succ k' ih =>
    rcases Nat.lt_or_ge k (k' + 1) with hlt | hge
    · have hk : k ≤ k' := by omega
      have := daysInYear_ge (y + k')
      calc yearsSpan y k ≤ yearsSpan y k' := ih hk
      _ ≤ yearsSpan y k' + daysInYear (y + k') := by omega
      _ = yearsSpan y (k' + 1) := rfl
    · have : k = k' + 1 := by omega
      subst this
      exact le_refl _

theorem isLeap_add_400 (y : Nat) : isLeap (y + 400) = isLeap y := by
  have h4 : (y + 400) % 4 = y % 4 := by omega
  have h100 : (y + 400) % 100 = y % 100 := by omega
  have h400 : (y + 400) % 400 = y % 400 := by omega
  simp [isLeap, h4, h100, h400]

theorem daysInYear_add_400 (y : Nat) : daysInYear (y + 400) = daysInYear y := by
  simp [daysInYear, isLeap_add_400]

theorem yearsSpan_shift_400 (y : Nat) : ∀ k, yearsSpan (y + 400) k = yearsSpan y k := by
  intro k
  induction k with
  | zero => rfl
  | succ k ih =>
    have ha : (y + 400) + k = (y + k) + 400 := by omega
    calc yearsSpan (y + 400) (k + 1) = yearsSpan (y + 400) k + daysInYear ((y + 400) + k) := rfl
    _ = yearsSpan y k + daysInYear (y + k) := by rw [ih, ha, daysInYear_add_400]
    _ = yearsSpan y (k + 1) := rfl

theorem yearsSpan_add (y : Nat) : ∀ (j k : Nat), yearsSpan y (k + j) = yearsSpan y k + yearsSpan (y + k) j := by
  intro j
  induction j with
  | zero => intro k; simp [yearsSpan]
  | succ j ih =>
    intro k
    have ha : y + (k + j) = (y + k) + j := by omega
    calc yearsSpan y (k + (j + 1)) = yearsSpan y ((k + j) + 1) := by
          rw [show k + (j + 1) = (k + j) + 1 by omega]
    _ = yearsSpan y (k + j) + daysInYear (y + (k + j)) := rfl
    _ = yearsSpan y k + (yearsSpan (y + k) j + daysInYear ((y + k) + j)) := by rw [ih, ha]; ring
    _ = yearsSpan y k + yearsSpan (y + k) (j + 1) := rfl

set_option maxRecDepth 4000 in
theorem yearsSpan_1970_400 : yearsSpan 1970 400 = 146097 := by rfl

theorem yearsSpan_1970_30 : yearsSpan 1970 30 = 10957 := by rfl

theorem yearsSpan_1970_mul400 : ∀ (n r : Nat), yearsSpan 1970 (400 * n + r) = 146097 * n + yearsSpan 1970 r := by
  intro n
  induction n with
  | zero => intro r; simp
  | succ n ih =>
    intro r
    have h1 : 400 * (n + 1) + r = 400 + (400 * n + r) := by ring
    rw [h1, show (400 : Nat) + (400 * n + r) = 400 + (400 * n + r) from rfl]
    rw [yearsSpan_add 1970 (400 * n + r) 400]
    rw [yearsSpan_1970_400, yearsSpan_shift_400, ih]
    ring

theorem yearsSpan_1970_8030 : yearsSpan 1970 8030 = 2932897 := by
  have := yearsSpan_1970_mul400 20 30
  rw [yearsSpan_1970_30] at this
  norm_num at this
  exact this

theorem findYear_spec : ∀ (fuel y z : Nat), z < yearsSpan y fuel →
    y ≤ (findYear fuel y z).1 ∧
    (findYear fuel y z).2 < daysInYear (findYear fuel y z).1 ∧
    yearsSpan y ((findYear fuel y z).1 - y) + (findYear fuel y z).2 = z := by
  intro fuel
  induction fuel with
  | zero => intro y z h; simp [yearsSpan] at h
  | succ fuel ih =>
    intro y z h
    by_cases hz : z < daysInYear y
    · simp only [findYear, if_pos hz]
      exact ⟨le_refl y, hz, by simp [yearsSpan]⟩
    · simp only [findYear, if_neg hz]
      have hb : z - daysInYear y < yearsSpan (y + 1) fuel := by
        have := yearsSpan_succ_front y fuel
        omega
      rcases ih (y + 1) (z - daysInYear y) hb with ⟨h1, h2, h3⟩
      refine ⟨by omega, h2, ?_⟩
      set Y := (findYear fuel (y + 1) (z - daysInYear y)).1 with hY
      have hYy : Y - y = (Y - (y + 1)) + 1 := by omega
      rw [hYy]
      rw [show (Y - (y + 1)) + 1 = 1 + (Y - (y + 1)) by omega]
      rw [yearsSpan_add y (Y - (y + 1)) 1]
      have h1span : yearsSpan y 1 = daysInYear y := by simp [yearsSpan]
      rw [h1span]
      omega
theorem monthLen_pos (y m : Nat) : 0 < monthLen y m := by
  unfold monthLen
  split
  · split <;> omega
  · split <;> omega

theorem monthLen_le_31 (y m : Nat) : monthLen y m ≤ 31 := by
  unfold monthLen
  split
  · split <;> omega
  · split <;> omega

theorem monthDaysBefore_step (y k : Nat) :
    monthDaysBefore y (k + 2) = monthDaysBefore y (k + 1) + monthLen y (k + 1) := rfl

theorem monthDaysBefore_12 (y : Nat) :
    monthDaysBefore y 12 = 0 + monthLen y 1 + monthLen y 2 + monthLen y 3 + monthLen y 4
      + monthLen y 5 + monthLen y 6 + monthLen y 7 + monthLen y 8 + monthLen y 9
      + monthLen y 10 + monthLen y 11 := rfl

theorem monthsTotal (y : Nat) :
    monthDaysBefore y 12 + monthLen y 12 = daysInYear y := by
  rw [monthDaysBefore_12]
  have h1 : monthLen y 1 = 31 := rfl
  have h3 : monthLen y 3 = 31 := rfl
  have h4 : monthLen y 4 = 30 := rfl
  have h5 : monthLen y 5 = 31 := rfl
  have h6 : monthLen y 6 = 30 := rfl
  have h7 : monthLen y 7 = 31 := rfl
  have h8 : monthLen y 8 = 31 := rfl
  have h9 : monthLen y 9 = 30 := rfl
  have h10 : monthLen y 10 = 31 := rfl
  have h11 : monthLen y 11 = 30 := rfl
  have h12 : monthLen y 12 = 31 := rfl
  cases hl : isLeap y
  · have h2 : monthLen y 2 = 28 := by simp [monthLen, hl]
    have hd : daysInYear y = 365 := by simp [daysInYear, hl]
    omega
  · have h2 : monthLen y 2 = 29 := by simp [monthLen, hl]
    have hd : daysInYear y = 366 := by simp [daysInYear, hl]
    omega

theorem findMonth_spec (y : Nat) : ∀ (fuel m doy : Nat), 1 ≤ m → m + fuel = 12 →
    monthDaysBefore y m + doy < daysInYear y →
    1 ≤ (findMonth y fuel m doy).1 ∧ (findMonth y fuel m doy).1 ≤ 12 ∧
    (findMonth y fuel m doy).2 < monthLen y (findMonth y fuel m doy).1 ∧
    monthDaysBefore y (findMonth y fuel m doy).1 + (findMonth y fuel m doy).2
      = monthDaysBefore y m + doy := by
  intro fuel
  induction fuel with
  | zero =>
    intro m doy h1 h12 hbound
    have hm : m = 12 := by omega
    subst hm
    have := monthsTotal y
    simp only [findMonth]
    exact ⟨by omega, le_refl _, by omega, trivial⟩
  | succ fuel ih =>
    intro m doy h1 h12 hbound
    by_cases hlt : doy < monthLen y m
    · simp only [findMonth, if_pos hlt]
      exact ⟨h1, by omega, hlt, trivial⟩
    · simp only [findMonth, if_neg hlt]
      obtain ⟨k, rfl⟩ : ∃ k, m = k + 1 := ⟨m - 1, by omega⟩
      have hstep : monthDaysBefore y (k + 1 + 1)
          = monthDaysBefore y (k + 1) + monthLen y (k + 1) := rfl
      rcases ih (k + 1 + 1) (doy - monthLen y (k + 1)) (by omega) (by omega) (by omega) with
        ⟨g1, g2, g3, g4⟩
      exact ⟨g1, g2, g3, by omega⟩
theorem monthDaysBefore_one (y : Nat) : monthDaysBefore y 1 = 0 := rfl

/-- Bounds and the `timegm` inverse for the fields `gmtime` produces on
instants up to 9999-12-31 23:59:59 UTC. -/
theorem gmtime_spec (t : Nat) (hT : t < 253402300800) :
    1970 ≤ (gmtime t).year ∧ (gmtime t).year ≤ 9999 ∧
    1 ≤ (gmtime t).mon ∧ (gmtime t).mon ≤ 12 ∧
    1 ≤ (gmtime t).mday ∧ (gmtime t).mday ≤ 31 ∧
    (gmtime t).hour ≤ 23 ∧ (gmtime t).minute ≤ 59 ∧ (gmtime t).second ≤ 59 ∧
    timegm (gmtime t).year (gmtime t).mon (gmtime t).mday
      (gmtime t).hour (gmtime t).minute (gmtime t).second = (t : Int) := by
  have hz : t / 86400 < yearsSpan 1970 9000 := by
    have := yearsSpan_ge 1970 9000
    omega
  rcases findYear_spec 9000 1970 (t / 86400) hz with ⟨hy1, hy2, hy3⟩
  have hyle : (findYear 9000 1970 (t / 86400)).1 ≤ 9999 := by
    by_contra hgt
    have h8030 : 8030 ≤ (findYear 9000 1970 (t / 86400)).1 - 1970 := by omega
    have := yearsSpan_mono 1970 h8030
    rw [yearsSpan_1970_8030] at this
    omega
  have hmb : monthDaysBefore (findYear 9000 1970 (t / 86400)).1 1
      + (findYear 9000 1970 (t / 86400)).2
      < daysInYear (findYear 9000 1970 (t / 86400)).1 := by
    rw [monthDaysBefore_one]
    omega
  rcases findMonth_spec (findYear 9000 1970 (t / 86400)).1 11 1
      (findYear 9000 1970 (t / 86400)).2 (by omega) (by omega) hmb with ⟨hm1, hm2, hm3, hm4⟩
  rw [monthDaysBefore_one] at hm4
  have hml := monthLen_le_31 (findYear 9000 1970 (t / 86400)).1
    (findMonth (findYear 9000 1970 (t / 86400)).1 11 1 (findYear 9000 1970 (t / 86400)).2).1
  have hYe : (gmtime t).year = (findYear 9000 1970 (t / 86400)).1 := rfl
  have hMo : (gmtime t).mon
      = (findMonth (findYear 9000 1970 (t / 86400)).1 11 1 (findYear 9000 1970 (t / 86400)).2).1 := rfl
  have hDa : (gmtime t).mday
      = (findMonth (findYear 9000 1970 (t / 86400)).1 11 1 (findYear 9000 1970 (t / 86400)).2).2 + 1 := rfl
  have hHo : (gmtime t).hour = t % 86400 / 3600 := rfl
  have hMi : (gmtime t).minute = t % 86400 % 3600 / 60 := rfl
  have hSe : (gmtime t).second = t % 86400 % 60 := rfl
  rw [hYe, hMo, hDa, hHo, hMi, hSe]
  refine ⟨hy1, hyle, hm1, hm2, by omega, by omega, by omega, by omega, by omega, ?_⟩
  unfold timegm daysFromCivil
  rw [if_pos (by omega : 1970 ≤ (findYear 9000 1970 (t / 86400)).1)]
  push_cast
  omega
theorem digitChar_isDigit : ∀ n : Nat, n < 10 → (Nat.digitChar n).isDigit = true := by
  decide

theorem digitVal_digitChar : ∀ n : Nat, n < 10 → digitVal (Nat.digitChar n) = n := by
  decide

theorem parse_render (suf : List Char) (y mo d h mi s : Nat)
    (hy1 : 1 ≤ y) (hy2 : y ≤ 9999) (hmo1 : 1 ≤ mo) (hmo2 : mo ≤ 12)
    (hd1 : 1 ≤ d) (hd2 : d ≤ 31) (hh : h ≤ 23) (hmi : mi ≤ 59) (hs : s ≤ 59) :
    parseName suf (yearChars y ++ '-' :: pad2 mo ++ '-' :: pad2 d ++ '_' :: pad2 h
      ++ ':' :: pad2 mi ++ ':' :: pad2 s ++ suf) = some (timegm y mo d h mi s) := by
  have hy : y < 10000 := by omega
  have e1 : y / 1000 < 10 := by omega
  have e2 : y / 100 % 10 < 10 := by omega
  have e3 : y / 10 % 10 < 10 := by omega
  have e4 : y % 10 < 10 := by omega
  have e5 : mo / 10 < 10 := by omega
  have e6 : mo % 10 < 10 := by omega
  have e7 : d / 10 < 10 := by omega
  have e8 : d % 10 < 10 := by omega
  have e9 : h / 10 < 10 := by omega
  have e10 : h % 10 < 10 := by omega
  have e11 : mi / 10 < 10 := by omega
  have e12 : mi % 10 < 10 := by omega
  have e13 : s / 10 < 10 := by omega
  have e14 : s % 10 < 10 := by omega
  simp only [yearChars, if_pos hy, pad2]
  simp only [List.cons_append, List.nil_append, List.append_assoc]
  simp only [parseName]
  rw [if_pos (And.intro (by
    simp [digitChar_isDigit _ e1, digitChar_isDigit _ e2, digitChar_isDigit _ e3,
      digitChar_isDigit _ e4, digitChar_isDigit _ e5, digitChar_isDigit _ e6,
      digitChar_isDigit _ e7, digitChar_isDigit _ e8, digitChar_isDigit _ e9,
      digitChar_isDigit _ e10, digitChar_isDigit _ e11, digitChar_isDigit _ e12,
      digitChar_isDigit _ e13, digitChar_isDigit _ e14]) trivial)]
  simp only [digitVal_digitChar _ e1, digitVal_digitChar _ e2, digitVal_digitChar _ e3,
    digitVal_digitChar _ e4, digitVal_digitChar _ e5, digitVal_digitChar _ e6,
    digitVal_digitChar _ e7, digitVal_digitChar _ e8, digitVal_digitChar _ e9,
    digitVal_digitChar _ e10, digitVal_digitChar _ e11, digitVal_digitChar _ e12,
    digitVal_digitChar _ e13, digitVal_digitChar _ e14]
  have hyrec : ((y / 1000 * 10 + y / 100 % 10) * 10 + y / 10 % 10) * 10 + y % 10 = y := by omega
  have hmorec : mo / 10 * 10 + mo % 10 = mo := by omega
  have hdrec : d / 10 * 10 + d % 10 = d := by omega
  have hhrec : h / 10 * 10 + h % 10 = h := by omega
  have hmirec : mi / 10 * 10 + mi % 10 = mi := by omega
  have hsrec : s / 10 * 10 + s % 10 = s := by omega
  rw [hyrec, hmorec, hdrec, hhrec, hmirec, hsrec]
  rw [if_pos (And.intro hy1 (And.intro hmo1 (And.intro hmo2 (And.intro hd1
    (And.intro hd2 (And.intro hh (And.intro hmi (by omega))))))))]
theorem string_data_append (a b : String) : (a ++ b).data = a.data ++ b.data := rfl

theorem isPrefixOf_self_append (l m : List Char) : l.isPrefixOf (l ++ m) = true := by
  induction l with
  | nil => simp [List.isPrefixOf]
  | cons c cs ih => simp [List.isPrefixOf, ih]

/-- C10 (amended): for every prefix and suffix free of `strptime` format
directives and every whole-second instant from 1970-01-01 up to (and
excluding) 10000-01-01 UTC, parsing the filename produced by
`make_backup_filename` with `get_ts_from_backup_name` returns the instant's
epoch timestamp rather than `None`. -/
theorem c10_roundtrip (pre suf : String) (t : Nat)
    (hpre : hasFormatDirective pre = false) (hsuf : hasFormatDirective suf = false)
    (ht : t < 253402300800) :
    get_ts_from_backup_name pre suf (make_backup_filename pre suf t) = some (t : Int) := by
  obtain ⟨g1, g2, g3, g4, g5, g6, g7, g8, g9, g10⟩ := gmtime_spec t ht
  unfold get_ts_from_backup_name make_backup_filename
  have hdata : (pre ++ String.mk (dateChars t) ++ suf).data
      = pre.data ++ (dateChars t ++ suf.data) := by
    rw [string_data_append, string_data_append]
    simp [List.append_assoc]
  rw [hdata]
  rw [if_pos (isPrefixOf_self_append pre.data (dateChars t ++ suf.data))]
  have hlen : pre.length = pre.data.length := rfl
  rw [hlen, List.drop_left]
  unfold dateChars
  rw [parse_render suf.data (gmtime t).year (gmtime t).mon (gmtime t).mday
    (gmtime t).hour (gmtime t).minute (gmtime t).second
    (by omega) g2 g3 g4 g5 g6 g7 g8 g9]
  rw [g10]
theorem yearsSpan_succ (y k : Nat) :
    yearsSpan y (k + 1) = yearsSpan y k + daysInYear (y + k) := rfl

theorem findYear_at_10000 : findYear 9000 1970 2932897 = (10000, 0) := by
  have hz : (2932897 : Nat) < yearsSpan 1970 9000 := by
    have := yearsSpan_ge 1970 9000
    omega
  rcases findYear_spec 9000 1970 2932897 hz with ⟨h1, h2, h3⟩
  obtain ⟨⟨Y, R⟩, hp⟩ : ∃ p, findYear 9000 1970 2932897 = p := ⟨_, rfl⟩
  rw [hp] at h1 h2 h3 ⊢
  simp only at h1 h2 h3
  have hY : Y = 10000 := by
    by_contra hne
    rcases Nat.lt_or_ge Y 10000 with hlt | hge
    · have hk : Y - 1970 + 1 ≤ 8030 := by omega
      have hmono := yearsSpan_mono 1970 hk
      rw [yearsSpan_1970_8030] at hmono
      have hstep : yearsSpan 1970 (Y - 1970 + 1)
          = yearsSpan 1970 (Y - 1970) + daysInYear (1970 + (Y - 1970)) := rfl
      rw [show 1970 + (Y - 1970) = Y by omega] at hstep
      omega
    · have hk : (8031 : Nat) ≤ Y - 1970 := by omega
      have hmono := yearsSpan_mono 1970 hk
      have hstep := yearsSpan_succ 1970 8030
      rw [show (8030 : Nat) + 1 = 8031 by norm_num] at hstep
      have hd := daysInYear_ge (1970 + 8030)
      rw [yearsSpan_1970_8030] at hstep
      omega
  subst hY
  have hR : R = 0 := by
    norm_num at h3
    rw [yearsSpan_1970_8030] at h3
    omega
  subst hR
  rfl

theorem gmtime_at_10000 : gmtime 253402300800 = ⟨10000, 1, 1, 0, 0, 0⟩ := by
  have h1 : gmtime 253402300800
      = ⟨(findYear 9000 1970 2932897).1,
         (findMonth (findYear 9000 1970 2932897).1 11 1 (findYear 9000 1970 2932897).2).1,
         (findMonth (findYear 9000 1970 2932897).1 11 1 (findYear 9000 1970 2932897).2).2 + 1,
         0, 0, 0⟩ := rfl
  rw [h1, findYear_at_10000]
  decide

/-- C10 counterexample: at the instant 253402300800 (10000-01-01 00:00:00
UTC) the produced name renders the year with five digits, `strptime`'s
`%Y` (exactly four digits) fails to match, and the parse returns `None`
instead of the timestamp — so the claim fails for that time instant even with
directive-free prefix and suffix. -/
theorem c10_counterexample : hasFormatDirective "" = false ∧
    get_ts_from_backup_name "" "" (make_backup_filename "" "" 253402300800) = none := by
  refine ⟨rfl, ?_⟩
  have hname : make_backup_filename "" "" 253402300800 = "10000-01-01_00:00:00" := by
    simp only [make_backup_filename, dateChars, gmtime_at_10000]
    decide
  rw [hname]
  decide

theorem c10_witness :
    hasFormatDirective "bk-" = false ∧ hasFormatDirective ".tar.gz" = false ∧
    (1760313599 : Nat) < 253402300800 ∧
    get_ts_from_backup_name "bk-" ".tar.gz"
        (make_backup_filename "bk-" ".tar.gz" 1760313599)
      = some ((1760313599 : Nat) : Int) :=
  ⟨by decide, by decide, by decide,
   c10_roundtrip "bk-" ".tar.gz" 1760313599 (by decide) (by decide) (by decide)⟩
